import Mathlib

/-!
Verification of the hierarchical aggregation engine of `app_v1.0.py`
(`build_tree` and its inner `add_node`, the inline color resolution, the
JSON-serialization fallback around `tree_data_json`, and the drag-reorder
handler of the embedded d3 script).

Modelling conventions, each taken from the source:
* a table is a list of rows; a row is an association list from column
  names to `Cell` values (`na` models NaN/None/NaT);
* `df.groupby(col)` is modelled by `groupby`: pandas' default is
  `sort=True, dropna=True`, so the group keys are deduplicated, sorted
  ascending, and rows whose key is NaN are dropped entirely;
* Python `str` ordering is lexicographic on code points (`strLtB`);
* numeric cells (pandas int64/float64) are exact rationals, and Python
  `round` is round-half-to-even on the exact rational value
  (`pyRoundDiv`); this idealizes the binary floating point the source
  computes with, and numeric grouping keys stringify in the model's
  canonical form (no claim depends on a numeric key's string);
* Python `int(...)` on a numeric value (line 195) is truncation toward
  zero on the exact rational (`pyInt`);
* fields of the node dictionary not examined by any claim
  (`tooltip_data`, the unused `status_mode` variable) are omitted; the
  `children` key that the source pops when empty is kept as `[]`.
-/

/-- A cell of the table: NaN/None (`na`), a string, or a number (an
exact rational, idealizing pandas int64/float64). -/
inductive Cell where
  | na : Cell
  | str (s : String) : Cell
  | num (q : ℚ) : Cell
deriving DecidableEq, Repr

/-- Python `pd.isna` on a cell. -/
def Cell.isNa : Cell → Bool
  | .na => true
  | _ => false

/-- Kind tag used to order cells of different kinds; cells of one real
pandas column share a kind, so only the same-kind cases matter. -/
def Cell.rank : Cell → Nat
  | .na => 0
  | .num _ => 1
  | .str _ => 2

/-- Python string comparison: lexicographic on code points. -/
def strLtB : List Char → List Char → Bool
  | [], [] => false
  | [], _ :: _ => true
  | _ :: _, [] => false
  | a :: as, b :: bs =>
    if a.toNat < b.toNat then true
    else if b.toNat < a.toNat then false
    else strLtB as bs

/-- The ascending key order used by `groupby(sort=True)`. -/
def Cell.ltB : Cell → Cell → Bool
  | .num a, .num b => decide (a < b)
  | .str a, .str b => strLtB a.data b.data
  | a, b => decide (a.rank < b.rank)

/-- Numeric content of a cell; non-numeric contributes 0 to a sum, the
way pandas `sum` skips NaN entries of a numeric column. -/
def Cell.toNum : Cell → ℚ
  | .num q => q
  | _ => 0

/-- Python `str(val)` on a cell. -/
def Cell.pyStr : Cell → String
  | .na => "nan"
  | .str s => s
  | .num q => toString q

/-- Line 189/271: `val_str = "No Data" if pd.isna(val) else str(val)`. -/
def valStr (c : Cell) : String := if c.isNa then "No Data" else c.pyStr

/-- A row of the table. -/
abbrev Row := List (String × Cell)

/-- Reading a column of a row; a missing column reads as NaN. -/
def Row.get (r : Row) (c : String) : Cell :=
  match r.find? (fun p => decide (p.1 = c)) with
  | some p => p.2
  | none => Cell.na

/-- First-match lookup in an association list (Python `dict` access). -/
def lookupList {α β : Type} [DecidableEq α] (l : List (α × β)) (a : α) : Option β :=
  (l.find? (fun p => decide (p.1 = a))).map (fun p => p.2)

/-- Insert a key into a sorted, deduplicated key list. -/
def insertKey (c : Cell) : List Cell → List Cell
  | [] => [c]
  | k :: ks =>
    if c = k then k :: ks
    else if Cell.ltB c k then c :: k :: ks
    else k :: insertKey c ks

/-- Deduplicated ascending sort of the group keys. -/
def sortedKeys (cs : List Cell) : List Cell := cs.foldr insertKey []

/-- The (non-NaN) grouping keys occurring in a list of rows; pandas
`groupby` drops NaN keys (`dropna=True` default). -/
def rowKeys (col : String) (rows : List Row) : List Cell :=
  rows.filterMap (fun r => if (Row.get r col).isNa then none else some (Row.get r col))

/-- Pandas `df.groupby(col)`: distinct non-NaN keys in ascending order, each
with the sublist of rows carrying that key (original order kept). -/
def groupby (col : String) (rows : List Row) : List (Cell × List Row) :=
  (sortedKeys (rowKeys col rows)).map
    (fun k => (k, rows.filter (fun r => decide (Row.get r col = k))))

/-- Python `round(a / b)` on the exact rational, for `b > 0`:
round-half-to-even (banker's rounding). -/
def pyRoundDiv (a b : Int) : Int :=
  let q0 := Int.ediv a b
  let r := Int.emod a b
  if 2 * r < b then q0
  else if b < 2 * r then q0 + 1
  else if Even q0 then q0 else q0 + 1

/-- Lines 197-200 / 279-282: `percentage_raw = (value / total_count) * 100
if total_count > 0 else 0; percentage = round(percentage_raw)`. Note the
denominator is `total_count = len(df)`, the row count of the whole input
table. -/
def percentage_value (total_count : Nat) (value : Int) : Int :=
  if 0 < total_count then pyRoundDiv (value * 100) (total_count : Int) else 0

/-- Python `int()` on an exact rational: truncation toward zero (the
numerator T-divided by the positive denominator). -/
def pyInt (q : ℚ) : Int := Int.div q.num (q.den : Int)

/-- Line 195/277: `int(group[value_col].sum()) if value_col else
int(len(group))` - note the `int()` truncation of the measure sum. -/
def rowsValue (value_col : Option String) (rows : List Row) : Int :=
  match value_col with
  | some vc => pyInt ((rows.map (fun r => (Row.get r vc).toNum)).sum)
  | none => rows.length

/-- Lines 190-194 / 272-276: a node survives the visibility filter unless
its column has a filter entry that is a non-empty set not containing the
node's value string. -/
def keepVal (display_filters : Option (List (String × List String)))
    (col val_str : String) : Bool :=
  match display_filters with
  | none => true
  | some m =>
    match lookupList m col with
    | none => true
    | some allowed => allowed.isEmpty || allowed.contains val_str

/-- Lines 240-245 / 319-325: start from the uniform color; in "By Level"
mode a per-level entry replaces it; a per-(column, value) override, when
present, replaces the result in every mode. -/
def node_color_value (color_mode uniform_color : String)
    (level_colors : Option (List (Nat × String)))
    (per_node_colors : Option (List ((String × String) × String)))
    (level : Nat) (col val_str : String) : String :=
  let base :=
    if color_mode = "By Level" then
      match level_colors with
      | some lc =>
        match lookupList lc level with
        | some c => c
        | none => uniform_color
      | none => uniform_color
    else uniform_color
  match per_node_colors with
  | some pc =>
    match lookupList pc (col, val_str) with
    | some c => c
    | none => base
  | none => base

/-- The node dictionary built at lines 247-258 / 327-338 (minus the
fields no claim mentions). `raw_data` models
`convert_pandas_to_json_serializable(group.to_dict('records'))` as the
group's rows themselves. -/
structure Node where
  name : String
  value : Int
  percentage : Int
  level : Nat
  column : String
  node_value : String
  color : String
  raw_data : List Row
  children : List Node

/-- Lines 247-258: one node of the tree, from its grouping column, key,
group rows and recursively built children. -/
def mkNode (total_count : Nat) (value_col : Option String)
    (color_mode uniform_color : String)
    (level_colors : Option (List (Nat × String)))
    (per_node_colors : Option (List ((String × String) × String)))
    (level : Nat) (col : String) (k : Cell) (g : List Row)
    (children : List Node) : Node :=
  { name := col ++ ": " ++ valStr k
    value := rowsValue value_col g
    percentage := percentage_value total_count (rowsValue value_col g)
    level := level
    column := col
    node_value := valStr k
    color := node_color_value color_mode uniform_color level_colors per_node_colors
      level col (valStr k)
    raw_data := g
    children := children }

/-- The recursive body shared by `add_node` (lines 184-262) and the
root-level loop (lines 269-342), which is a verbatim copy of it with
`level = 0`: group the rows by the column of the current level, skip the
group values the visibility filter hides, and build one node per
remaining group. -/
def buildForest (total_count : Nat) (value_col : Option String)
    (color_mode uniform_color : String)
    (level_colors : Option (List (Nat × String)))
    (per_node_colors : Option (List ((String × String) × String)))
    (display_filters : Option (List (String × List String))) :
    List String → Nat → List Row → List Node
  | [], _, _ => []
  | col :: rest, level, rows =>
    (groupby col rows).filterMap (fun g =>
      if keepVal display_filters col (valStr g.1) then
        some (mkNode total_count value_col color_mode uniform_color level_colors
          per_node_colors level col g.1 g.2
          (buildForest total_count value_col color_mode uniform_color level_colors
            per_node_colors display_filters rest (level + 1) g.2))
      else none)

/-- Function `build_tree` (lines 180-343): the empty-hierarchy guard of lines
265-267, then the recursive construction starting at level 0 with
`total_count = len(df)` (line 182). -/
def build_tree (df : List Row) (hierarchy : List String) (value_col : Option String)
    (color_mode uniform_color : String)
    (level_colors : Option (List (Nat × String)))
    (per_node_colors : Option (List ((String × String) × String)))
    (display_filters : Option (List (String × List String))) : List Node :=
  if hierarchy.isEmpty then []
  else
    buildForest df.length value_col color_mode uniform_color level_colors
      per_node_colors display_filters hierarchy 0 df

/-- Membership `InForest n ns`: `n` is one of the roots of `ns` or a node
of some root's subtree. -/
inductive InForest : Node → List Node → Prop where
  | here {n : Node} {ns : List Node} : n ∈ ns → InForest n ns
  | child {n m : Node} {ns : List Node} : m ∈ ns → InForest n m.children → InForest n ns

/-- The spec §8 scenario table: three rows over Region and Status. -/
def scenarioRows : List Row :=
  [ [("Region", Cell.str "North"), ("Status", Cell.str "Delayed")]
  , [("Region", Cell.str "North"), ("Status", Cell.str "On-Time")]
  , [("Region", Cell.str "South"), ("Status", Cell.str "On-Time")] ]

/-- A laid-out d3 node as the drag handler sees it: an identity and a
vertical position `x` (d3's vertical tree swaps axes; `x` is vertical). -/
structure DragNode where
  id : Nat
  x : Int
deriving DecidableEq, Repr

/-- Line 2361-2362: `let dropIndex = siblings.findIndex(s => py < s.x);
if (dropIndex === -1) dropIndex = siblings.length;`. -/
def dropIndexOf (py : Int) (siblings : List DragNode) : Nat :=
  match siblings.findIdx? (fun s => decide (py < s.x)) with
  | some i => i
  | none => siblings.length

/-- Lines 2364-2368: the `for` loop that pushes the dragged node just
before position `dropIndex` and every remaining sibling after it. -/
def spliceLoop (d : DragNode) : List DragNode → Nat → List DragNode
  | [], _ => []
  | s :: rest, 0 => d :: s :: rest
  | s :: rest, k + 1 => s :: spliceLoop d rest k

/-- Lines 2358-2369 of the drag "end" handler: the new sibling order
after dropping `d` at vertical position `py` among its (already sorted,
`d`-free) siblings, including the final
`if (dropIndex === siblings.length) newOrder.push(d)`. -/
def newOrder (d : DragNode) (siblings : List DragNode) (py : Int) : List DragNode :=
  let dropIndex := dropIndexOf py siblings
  let arr := spliceLoop d siblings dropIndex
  if dropIndex = siblings.length then arr ++ [d] else arr

/-- A value embedded in a node's `raw_data` after
`convert_pandas_to_json_serializable`: either a JSON-safe scalar or an
object `json.dumps` rejects (the conversion's fallback branches pass
e.g. dictionaries with tuple keys through unchanged). -/
inductive JVal where
  | jstr (s : String) : JVal
  | jnum (n : Int) : JVal
  | jnull : JVal
  | jbad (tag : String) : JVal
deriving DecidableEq, Repr

/-- Whether `json.dumps` accepts the value. -/
def JVal.serializable : JVal → Bool
  | .jbad _ => false
  | _ => true

/-- The `d3_tree_data` dictionary handed to `json.dumps` (lines 709-728),
with the fields no claim mentions omitted. -/
structure DTree where
  name : String
  level : Int
  value : Int
  color : String
  raw_data : List JVal
  children : List DTree
deriving Repr

mutual
/-- Whether `json.dumps` succeeds on the tree: iff every embedded `raw_data`
value, at every depth, is serializable. -/
def dumpable : DTree → Bool
  | ⟨_, _, _, _, raw, ch⟩ => raw.all JVal.serializable && dumpableList ch
/-- Conjunction of `dumpable` over a children list. -/
def dumpableList : List DTree → Bool
  | [] => true
  | t :: ts => dumpable t && dumpableList ts
end

/-- Call `json.dumps(...)` on the converted tree: the serialized output
(modelled by the tree itself) when it succeeds, `none` when it raises. -/
def json_dumps (t : DTree) : Option DTree :=
  if dumpable t then some t else none

/-- Lines 732-740: the fallback structure built in the `except` branch:
the root's fields with `raw_data` emptied, but `children` taken over
as-is (`d3_tree_data.get("children", [])`). -/
def fallbackTree (t : DTree) : DTree :=
  { name := t.name
    level := t.level
    value := t.value
    color := t.color
    raw_data := []
    children := t.children }

/-- Lines 725-741: try `json.dumps` on the full tree; on failure, run
`json.dumps` on the fallback structure (this second call is not guarded
by any handler). -/
def tree_data_json (t : DTree) : Option DTree :=
  match json_dumps t with
  | some s => some s
  | none => json_dumps (fallbackTree t)


/-- The shape every node of a built forest has, read off lines 184-262:
its `value`, `percentage` and `color` are computed from its own group
rows and identity, it survived the visibility filter, and its children
are built from its own group rows at the next hierarchy level. -/
def NodeInv (total_count : Nat) (value_col : Option String)
    (color_mode uniform_color : String)
    (level_colors : Option (List (Nat × String)))
    (per_node_colors : Option (List ((String × String) × String)))
    (display_filters : Option (List (String × List String)))
    (hierarchy : List String) (n : Node) : Prop :=
  n.value = rowsValue value_col n.raw_data ∧
  n.percentage = percentage_value total_count n.value ∧
  n.color = node_color_value color_mode uniform_color level_colors per_node_colors
    n.level n.column n.node_value ∧
  keepVal display_filters n.column n.node_value = true ∧
  n.children = buildForest total_count value_col color_mode uniform_color level_colors
    per_node_colors display_filters (hierarchy.drop (n.level + 1)) (n.level + 1) n.raw_data

/-- At every depth of the forest, the sibling lists follow the ascending
order of some strictly sorted list of grouping keys. -/
inductive KeySortedForest : List Node → Prop where
  | intro {ns : List Node} (ks : List Cell)
      (hsort : ks.Pairwise (fun a b => Cell.ltB a b = true))
      (hmap : ns.map Node.node_value = ks.map valStr)
      (hch : ∀ n ∈ ns, KeySortedForest n.children) : KeySortedForest ns

/-- C1 counterexample table: the second row has NaN in the child column
`B`, so pandas drops it from the child grouping. -/
def c1xrows : List Row :=
  [ [("A", Cell.str "x"), ("B", Cell.str "y")]
  , [("A", Cell.str "x"), ("B", Cell.na)] ]

/-- The single root `build_tree` produces on `c1xrows` with hierarchy
`["A", "B"]`: value 2, but its only child holds value 1. -/
def c1xnode : Node :=
  { name := "A: x", value := 2, percentage := 100, level := 0, column := "A"
    node_value := "x", color := "#3B82F6", raw_data := c1xrows
    children :=
      [ { name := "B: y", value := 1, percentage := 50, level := 1, column := "B"
          node_value := "y", color := "#3B82F6"
          raw_data := [[("A", Cell.str "x"), ("B", Cell.str "y")]]
          children := [] } ] }

/-- C1 second counterexample table: integer child keys, no filter, but a
fractional measure column - `int()` truncation alone breaks additivity. -/
def c1frows : List Row :=
  [ [("A", Cell.str "x"), ("B", Cell.str "y"), ("v", Cell.num (1/2))]
  , [("A", Cell.str "x"), ("B", Cell.str "z"), ("v", Cell.num (1/2))] ]

/-- C1 witness table: a sum-mode measure column with integer values. -/
def c1wrows : List Row :=
  [ [("A", Cell.str "x"), ("B", Cell.str "y"), ("v", Cell.num 2)]
  , [("A", Cell.str "x"), ("B", Cell.str "z"), ("v", Cell.num 3)] ]

/-- The single root `build_tree` produces on `c1wrows` with the measure
column "v": value 5 = 2 + 3 across its children. -/
def c1wnode : Node :=
  { name := "A: x", value := 5, percentage := 250, level := 0, column := "A"
    node_value := "x", color := "#3B82F6", raw_data := c1wrows
    children :=
      [ { name := "B: y", value := 2, percentage := 100, level := 1, column := "B"
          node_value := "y", color := "#3B82F6"
          raw_data := [[("A", Cell.str "x"), ("B", Cell.str "y"), ("v", Cell.num 2)]]
          children := [] }
      , { name := "B: z", value := 3, percentage := 150, level := 1, column := "B"
          node_value := "z", color := "#3B82F6"
          raw_data := [[("A", Cell.str "x"), ("B", Cell.str "z"), ("v", Cell.num 3)]]
          children := [] } ] }

/-- C2 counterexample table: two rows, each with measure value 10. -/
def c2rows : List Row :=
  [ [("A", Cell.str "x"), ("v", Cell.num 10)]
  , [("A", Cell.str "x"), ("v", Cell.num 10)] ]

/-- The "Region: South" root `build_tree` produces on `scenarioRows`. -/
def c2wnode : Node :=
  { name := "Region: South", value := 1, percentage := 33, level := 0
    column := "Region", node_value := "South", color := "#3B82F6"
    raw_data := [[("Region", Cell.str "South"), ("Status", Cell.str "On-Time")]]
    children :=
      [ { name := "Status: On-Time", value := 1, percentage := 33, level := 1
          column := "Status", node_value := "On-Time", color := "#3B82F6"
          raw_data := [[("Region", Cell.str "South"), ("Status", Cell.str "On-Time")]]
          children := [] } ] }

/-- C3 failing input: a single row whose grouping value is NaN. -/
def c3row : Row := [("Region", Cell.na)]

/-- C3 second input: one NaN-keyed row next to an ordinary one. -/
def c3rows2 : List Row := [[("Region", Cell.na)], [("Region", Cell.str "A")]]

/-- C4 witness table. -/
def c4rows : List Row := [[("A", Cell.str "x")]]

/-- The node `build_tree` produces on `c4rows` when the override map
colors ("A", "x") red: the override wins in "Uniform" mode. -/
def c4node : Node :=
  { name := "A: x", value := 1, percentage := 100, level := 0, column := "A"
    node_value := "x", color := "#FF0000", raw_data := c4rows, children := [] }

/-- C5 table: two rows split between child groups "y" and "z". -/
def c5rows : List Row :=
  [ [("A", Cell.str "x"), ("B", Cell.str "y")]
  , [("A", Cell.str "x"), ("B", Cell.str "z")] ]

/-- The child node surviving the `{"B": {"y"}}` visibility filter. -/
def c5childnode : Node :=
  { name := "B: y", value := 1, percentage := 50, level := 1, column := "B"
    node_value := "y", color := "#3B82F6"
    raw_data := [[("A", Cell.str "x"), ("B", Cell.str "y")]], children := [] }

/-- The root node over `c5rows` under the `{"B": {"y"}}` filter: its
value 2 still counts the filtered-out "z" row. -/
def c5rootnode : Node :=
  { name := "A: x", value := 2, percentage := 100, level := 0, column := "A"
    node_value := "x", color := "#3B82F6", raw_data := c5rows
    children := [c5childnode] }

/-- C8 witness: the dragged node. -/
def c8d : DragNode := { id := 99, x := 5 }

/-- C8 witness: the two remaining siblings, sorted by position. -/
def c8sibs : List DragNode := [{ id := 1, x := 0 }, { id := 2, x := 10 }]

/-- A child node whose `raw_data` holds a value `json.dumps` rejects. -/
def c9child : DTree :=
  { name := "A: x", level := 0, value := 1, color := "#3B82F6"
    raw_data := [JVal.jbad "tuple-keyed dict"], children := [] }

/-- C9 failing input: serialization fails because of a child's
`raw_data`; the fallback keeps the children, so it fails again. -/
def c9tree : DTree :=
  { name := "Root", level := -1, value := 1, color := "#3B82F6"
    raw_data := [], children := [c9child] }

/-- C9 second input: the offending value sits only in the root's
`raw_data`, so the fallback serializes - but still carries the
children's raw payload. -/
def c9tree2 : DTree :=
  { name := "Root", level := -1, value := 1, color := "#3B82F6"
    raw_data := [JVal.jbad "tuple-keyed dict"]
    children :=
      [ { name := "A: x", level := 0, value := 1, color := "#3B82F6"
          raw_data := [JVal.jstr "row"], children := [] } ] }

theorem Char.toNat_injective {x y : Char} (h : x.toNat = y.toNat) : x = y := by
  have h2 := congrArg Char.ofNat h
  rwa [Char.ofNat_toNat, Char.ofNat_toNat] at h2

theorem strLtB_cons_true {x y : Char} {xs ys : List Char} :
    strLtB (x :: xs) (y :: ys) = true ↔
      x.toNat < y.toNat ∨ (x.toNat = y.toNat ∧ strLtB xs ys = true) := by
  simp only [strLtB]
  split_ifs with h1 h2
  · simpa using Or.inl h1
  · constructor
    · intro h; simp at h
    · rintro (h | ⟨h, _⟩) <;> omega
  · have hxy : x.toNat = y.toNat := by omega
    simp [hxy]

theorem strLtB_cons_false {x y : Char} {xs ys : List Char} :
    strLtB (x :: xs) (y :: ys) = false ↔
      y.toNat < x.toNat ∨ (x.toNat = y.toNat ∧ strLtB xs ys = false) := by
  simp only [strLtB]
  split_ifs with h1 h2
  · constructor
    · intro h; simp at h
    · rintro (h | ⟨h, _⟩) <;> omega
  · simpa using Or.inl h2
  · have hxy : x.toNat = y.toNat := by omega
    simp [hxy]

theorem strLtB_irrefl (l : List Char) : strLtB l l = false := by
  induction l with
  | nil => rfl
  | cons a as ih => simp [strLtB, ih]

theorem strLtB_trans {a b c : List Char} (hab : strLtB a b = true)
    (hbc : strLtB b c = true) : strLtB a c = true := by
  induction a generalizing b c with
  | nil =>
    cases b with
    | nil => exact absurd hab (by simp [strLtB])
    | cons y ys =>
      cases c with
      | nil => exact absurd hbc (by simp [strLtB])
      | cons z zs => simp [strLtB]
  | cons x xs ih =>
    cases b with
    | nil => exact absurd hab (by simp [strLtB])
    | cons y ys =>
      cases c with
      | nil => exact absurd hbc (by simp [strLtB])
      | cons z zs =>
        rcases strLtB_cons_true.mp hab with h1 | ⟨h1, h1r⟩ <;>
          rcases strLtB_cons_true.mp hbc with h2 | ⟨h2, h2r⟩
        · exact strLtB_cons_true.mpr (Or.inl (by omega))
        · exact strLtB_cons_true.mpr (Or.inl (by omega))
        · exact strLtB_cons_true.mpr (Or.inl (by omega))
        · exact strLtB_cons_true.mpr (Or.inr ⟨by omega, ih h1r h2r⟩)

theorem strLtB_eq_of_not {a b : List Char} (hab : strLtB a b = false)
    (hba : strLtB b a = false) : a = b := by
  induction a generalizing b with
  | nil =>
    cases b with
    | nil => rfl
    | cons y ys => exact absurd hab (by simp [strLtB])
  | cons x xs ih =>
    cases b with
    | nil => exact absurd hba (by simp [strLtB])
    | cons y ys =>
      rcases strLtB_cons_false.mp hab with h1 | ⟨h1, h1r⟩ <;>
        rcases strLtB_cons_false.mp hba with h2 | ⟨h2, h2r⟩
      · omega
      · omega
      · omega
      · exact congrArg₂ (· :: ·) (Char.toNat_injective h1) (ih h1r h2r)

theorem Cell.ltB_irrefl (c : Cell) : Cell.ltB c c = false := by
  cases c <;> simp [Cell.ltB, strLtB_irrefl]

theorem Cell.ltB_trans {a b c : Cell} (hab : Cell.ltB a b = true)
    (hbc : Cell.ltB b c = true) : Cell.ltB a c = true := by
  cases a <;> cases b <;> cases c <;>
    simp_all only [Cell.ltB, Cell.rank, decide_eq_true_eq] <;>
    first
    | omega
    | exact lt_trans hab hbc
    | exact strLtB_trans hab hbc

theorem Cell.eq_of_not_ltB {a b : Cell} (hab : Cell.ltB a b = false)
    (hba : Cell.ltB b a = false) : a = b := by
  cases a <;> cases b <;>
    simp_all only [Cell.ltB, Cell.rank, decide_eq_false_iff_not, not_lt] <;>
    first
    | rfl
    | omega
    | exact congrArg Cell.str (congrArg String.mk (strLtB_eq_of_not hab hba))
    | exact congrArg Cell.num (le_antisymm hba hab)

theorem mem_insertKey {x c : Cell} : ∀ {ks : List Cell},
    x ∈ insertKey c ks ↔ x = c ∨ x ∈ ks := by
  intro ks
  induction ks with
  | nil => simp [insertKey]
  | cons k ks ih =>
    simp only [insertKey]
    split_ifs with h1 h2
    · subst h1; simp [List.mem_cons]
    · simp [List.mem_cons]
    · simp [List.mem_cons, ih]; tauto

theorem pairwise_insertKey {c : Cell} {ks : List Cell}
    (h : ks.Pairwise (fun a b => Cell.ltB a b = true)) :
    (insertKey c ks).Pairwise (fun a b => Cell.ltB a b = true) := by
  induction ks with
  | nil => simp [insertKey]
  | cons k ks ih =>
    rcases List.pairwise_cons.mp h with ⟨hk, hks⟩
    simp only [insertKey]
    split_ifs with h1 h2
    · exact h
    · refine List.pairwise_cons.mpr ⟨?_, h⟩
      intro y hy
      rcases List.mem_cons.mp hy with rfl | hy
      · exact h2
      · exact Cell.ltB_trans h2 (hk y hy)
    · refine List.pairwise_cons.mpr ⟨?_, ih hks⟩
      intro y hy
      rcases mem_insertKey.mp hy with rfl | hy
      · cases hkc : Cell.ltB k y
        · exact absurd (Cell.eq_of_not_ltB (by simpa using h2) hkc) h1
        · rfl
      · exact hk y hy

theorem sortedKeys_cons (c : Cell) (cs : List Cell) :
    sortedKeys (c :: cs) = insertKey c (sortedKeys cs) := rfl

theorem pairwise_sortedKeys (cs : List Cell) :
    (sortedKeys cs).Pairwise (fun a b => Cell.ltB a b = true) := by
  induction cs with
  | nil => simp [sortedKeys]
  | cons c cs ih => rw [sortedKeys_cons]; exact pairwise_insertKey ih

theorem mem_sortedKeys {x : Cell} : ∀ {cs : List Cell}, x ∈ sortedKeys cs ↔ x ∈ cs := by
  intro cs
  induction cs with
  | nil => simp [sortedKeys]
  | cons c cs ih => rw [sortedKeys_cons, mem_insertKey, ih, List.mem_cons]

theorem nodup_sortedKeys (cs : List Cell) : (sortedKeys cs).Nodup := by
  refine (pairwise_sortedKeys cs).imp ?_
  intro a b hab
  intro hEq
  subst hEq
  exact absurd hab (by simp [Cell.ltB_irrefl])

theorem mem_groupby {col : String} {rows : List Row} {k : Cell} {g : List Row}
    (h : (k, g) ∈ groupby col rows) :
    g = rows.filter (fun r => decide (Row.get r col = k)) ∧
      k ∈ sortedKeys (rowKeys col rows) := by
  simp only [groupby, List.mem_map] at h
  obtain ⟨k2, hk2, hEq⟩ := h
  obtain ⟨h1, h2⟩ := Prod.mk.injEq .. ▸ hEq
  exact ⟨h2.symm ▸ (by rw [h1]), h1 ▸ hk2⟩

theorem mem_rowKeys_elim {col : String} {rows : List Row} {k : Cell}
    (h : k ∈ rowKeys col rows) :
    k.isNa = false ∧ ∃ r ∈ rows, Row.get r col = k := by
  simp only [rowKeys, List.mem_filterMap] at h
  obtain ⟨r, hr, hcond⟩ := h
  by_cases hna : (Row.get r col).isNa
  · simp [hna] at hcond
  · simp [hna] at hcond
    exact ⟨hcond ▸ (by simpa using hna), r, hr, hcond⟩

theorem mem_rowKeys_intro {col : String} {rows : List Row} {r : Row}
    (hr : r ∈ rows) (hna : (Row.get r col).isNa = false) :
    Row.get r col ∈ rowKeys col rows := by
  simp only [rowKeys, List.mem_filterMap]
  exact ⟨r, hr, by simp [hna]⟩

theorem sum_map_add_comm {α M : Type} [AddCommMonoid M] (l : List α) (f g : α → M) :
    (l.map (fun x => f x + g x)).sum = (l.map f).sum + (l.map g).sum := by
  induction l with
  | nil => simp
  | cons a l ih => simp [ih]; abel

theorem sum_map_ite_single {α M : Type} [DecidableEq α] [AddCommMonoid M] (v : M) :
    ∀ (ks : List α) (a : α), ks.Nodup → a ∈ ks →
      (ks.map (fun k => if a = k then v else 0)).sum = v := by
  intro ks
  induction ks with
  | nil => simp
  | cons k ks ih =>
    intro a hnd ha
    rcases List.mem_cons.mp ha with rfl | ha
    · have hnotin : a ∉ ks := (List.nodup_cons.mp hnd).1
      have hz : (ks.map (fun k => if a = k then v else 0)).sum = 0 := by
        apply List.sum_eq_zero
        intro x hx
        rcases List.mem_map.mp hx with ⟨k2, hk2, hEq⟩
        have : a ≠ k2 := fun h => hnotin (h ▸ hk2)
        simpa [this] using hEq.symm
      simp [hz]
    · have hne : ¬ a = k := fun h => (List.nodup_cons.mp hnd).1 (h ▸ ha)
      simp only [List.map_cons, List.sum_cons, if_neg hne, zero_add]
      exact ih a (List.nodup_cons.mp hnd).2 ha

theorem sum_filter_partition {M : Type} [AddCommMonoid M] (col : String) (f : Row → M) :
    ∀ (rows : List Row) (ks : List Cell), ks.Nodup →
      (∀ r ∈ rows, Row.get r col ∈ ks) →
      (ks.map (fun k =>
          ((rows.filter (fun r => decide (Row.get r col = k))).map f).sum)).sum
        = (rows.map f).sum := by
  intro rows
  induction rows with
  | nil =>
    intro ks _ _
    simp
  | cons r rows ih =>
    intro ks hnd hcov
    have hr : Row.get r col ∈ ks := hcov r (List.mem_cons_self r rows)
    have hsplit : ∀ k : Cell,
        ((List.filter (fun r2 => decide (Row.get r2 col = k)) (r :: rows)).map f).sum
          = (if Row.get r col = k then f r else 0)
            + ((rows.filter (fun r2 => decide (Row.get r2 col = k))).map f).sum := by
      intro k
      by_cases h : Row.get r col = k <;> simp [List.filter_cons, h]
    calc (ks.map (fun k =>
            ((List.filter (fun r2 => decide (Row.get r2 col = k)) (r :: rows)).map f).sum)).sum
        = (ks.map (fun k => (if Row.get r col = k then f r else 0)
            + ((rows.filter (fun r2 => decide (Row.get r2 col = k))).map f).sum)).sum := by
          rw [List.map_congr_left (fun k _ => hsplit k)]
      _ = (ks.map (fun k => if Row.get r col = k then f r else 0)).sum
            + (ks.map (fun k =>
                ((rows.filter (fun r2 => decide (Row.get r2 col = k))).map f).sum)).sum := by
          rw [sum_map_add_comm]
      _ = f r + (rows.map f).sum := by
          rw [sum_map_ite_single (f r) ks (Row.get r col) hnd hr,
            ih ks hnd (fun r2 hr2 => hcov r2 (List.mem_cons_of_mem r hr2))]
      _ = ((r :: rows).map f).sum := by simp

theorem groupby_sum {M : Type} [AddCommMonoid M] (col : String) (f : Row → M) (rows : List Row)
    (hna : ∀ r ∈ rows, (Row.get r col).isNa = false) :
    ((groupby col rows).map (fun g => (g.2.map f).sum)).sum = (rows.map f).sum := by
  unfold groupby
  rw [List.map_map]
  exact sum_filter_partition col f rows _ (nodup_sortedKeys _)
    (fun r hr => mem_sortedKeys.mpr (mem_rowKeys_intro hr (hna r hr)))

theorem length_sum_int (rows : List Row) :
    (rows.map (fun _ => (1 : Int))).sum = rows.length := by
  induction rows with
  | nil => simp
  | cons r rows ih => simp [ih]; omega


section BuildTree

variable (total_count : Nat) (value_col : Option String) (color_mode uniform_color : String)
  (level_colors : Option (List (Nat × String)))
  (per_node_colors : Option (List ((String × String) × String)))
  (display_filters : Option (List (String × List String)))

theorem mem_buildForest {n : Node} {hl : List String} {level : Nat} {rows : List Row}
    (h : n ∈ buildForest total_count value_col color_mode uniform_color level_colors
      per_node_colors display_filters hl level rows) :
    ∃ col rest k g, hl = col :: rest ∧ (k, g) ∈ groupby col rows ∧
      keepVal display_filters col (valStr k) = true ∧
      n = mkNode total_count value_col color_mode uniform_color level_colors
        per_node_colors level col k g
        (buildForest total_count value_col color_mode uniform_color level_colors
          per_node_colors display_filters rest (level + 1) g) := by
  cases hl with
  | nil => exact absurd h (by simp [buildForest])
  | cons col rest =>
    simp only [buildForest, List.mem_filterMap] at h
    obtain ⟨g, hg, hsome⟩ := h
    by_cases hkeep : keepVal display_filters col (valStr g.1) = true
    · rw [if_pos hkeep] at hsome
      obtain rfl := (Option.some.injEq ..).mp hsome
      exact ⟨col, rest, g.1, g.2, rfl, by simpa using hg, hkeep, rfl⟩
    · rw [if_neg hkeep] at hsome
      exact absurd hsome (by simp)

theorem nodeInv_of_inForest (hierarchy : List String) :
    ∀ (n : Node) (fr : List Node), InForest n fr →
    ∀ (level : Nat) (rows : List Row),
      fr = buildForest total_count value_col color_mode uniform_color level_colors
        per_node_colors display_filters (hierarchy.drop level) level rows →
      NodeInv total_count value_col color_mode uniform_color level_colors
        per_node_colors display_filters hierarchy n := by
  intro n fr h
  induction h with
  | here hmem =>
    intro level rows hfr
    subst hfr
    obtain ⟨col, rest, k, g, hcons, hg, hkeep, hn⟩ := mem_buildForest
      total_count value_col color_mode uniform_color level_colors per_node_colors
      display_filters hmem
    have hrest : hierarchy.drop (level + 1) = rest := by
      rw [← List.tail_drop, hcons]
      rfl
    subst hn
    refine ⟨rfl, rfl, rfl, hkeep, ?_⟩
    simp only [mkNode]
    rw [hrest]
  | child hmem hsub ih =>
    intro level rows hfr
    subst hfr
    obtain ⟨col, rest, k, g, hcons, hg, hkeep, hm⟩ := mem_buildForest
      total_count value_col color_mode uniform_color level_colors per_node_colors
      display_filters hmem
    have hrest : hierarchy.drop (level + 1) = rest := by
      rw [← List.tail_drop, hcons]
      rfl
    refine ih (level + 1) g ?_
    rw [hm, hrest]
    exact rfl

theorem nodeInv_of_build_tree {df : List Row} {hierarchy : List String} {n : Node}
    (h : InForest n (build_tree df hierarchy value_col color_mode uniform_color
      level_colors per_node_colors display_filters)) :
    NodeInv df.length value_col color_mode uniform_color level_colors per_node_colors
      display_filters hierarchy n := by
  cases hierarchy with
  | nil =>
    rw [show build_tree df [] value_col color_mode uniform_color level_colors
        per_node_colors display_filters = [] from rfl] at h
    cases h with
    | here hmem => exact absurd hmem (by simp)
    | child hmem _ => exact absurd hmem (by simp)
  | cons col rest =>
    refine nodeInv_of_inForest df.length value_col color_mode uniform_color level_colors
      per_node_colors display_filters (col :: rest) n _ h 0 df ?_
    rfl

theorem node_color_value_override (cm uc : String)
    (lc : Option (List (Nat × String))) (pc : List ((String × String) × String))
    (level : Nat) (col vs c : String) (h : lookupList pc (col, vs) = some c) :
    node_color_value cm uc lc (some pc) level col vs = c := by
  simp only [node_color_value, h]

/-- C6: for every row table and every other argument, `build_tree` called
with an empty hierarchy list returns the empty forest, building no tree
(lines 265-267). -/
theorem spec_C6_empty_hierarchy (df : List Row) (vc : Option String)
    (cm uc : String) (lc : Option (List (Nat × String)))
    (pc : Option (List ((String × String) × String)))
    (flt : Option (List (String × List String))) :
    build_tree df [] vc cm uc lc pc flt = [] := rfl

/-- C10: on an empty row table the percentage computation is guarded:
`build_tree` produces no node at all (so trivially every produced node's
percentage is 0), and the guard of lines 198/280 returns 0 whenever
`total_count = 0` instead of dividing by zero. -/
theorem spec_C10_empty_table (hierarchy : List String) (vc : Option String)
    (cm uc : String) (lc : Option (List (Nat × String)))
    (pc : Option (List ((String × String) × String)))
    (flt : Option (List (String × List String))) :
    build_tree [] hierarchy vc cm uc lc pc flt = [] ∧
      ∀ v : Int, percentage_value 0 v = 0 := by
  constructor
  · cases hierarchy <;> rfl
  · intro v; rfl

/-- C3 (code bug): a row whose grouping value is NaN produces NO node at
that level: pandas `groupby` (default `dropna=True`) drops the NaN key
before the `"No Data"` normalization of lines 189/271 can ever see it,
so the claimed "`<column>: No Data`" node never exists. On the one-NaN-row
table the forest is empty; next to an ordinary row, only that row's node
appears and the NaN row simply vanishes. -/
theorem spec_C3_no_data_node_missing :
    build_tree [c3row] ["Region"] none "Uniform" "#3B82F6" none none none = [] ∧
      (build_tree c3rows2 ["Region"] none "Uniform" "#3B82F6" none none none).map
        (fun n => (n.name, n.value)) = [("Region: A", 1)] :=
  ⟨rfl, rfl⟩

/-- C4: a per-(column, node_value) override present in the override map
determines the node's color in every color mode, taking precedence over
the uniform and per-level colors (lines 240-245 / 319-325: the override
check runs last, unconditionally). -/
theorem spec_C4_override_precedence (df : List Row) (hierarchy : List String)
    (vc : Option String) (cm uc : String) (lc : Option (List (Nat × String)))
    (pc : List ((String × String) × String))
    (flt : Option (List (String × List String))) (n : Node) (c : String)
    (hn : InForest n (build_tree df hierarchy vc cm uc lc (some pc) flt))
    (hov : lookupList pc (n.column, n.node_value) = some c) :
    n.color = c := by
  obtain ⟨-, -, hcolor, -, -⟩ := nodeInv_of_build_tree vc cm uc lc (some pc) flt hn
  rw [hcolor]
  exact node_color_value_override cm uc lc pc n.level n.column n.node_value c hov

/-- C4 witness: on `c4rows` in "Uniform" mode with the override map
coloring ("A", "x") red, the produced node is red. -/
theorem spec_C4_witness :
    lookupList [(("A", "x"), "#FF0000")] (c4node.column, c4node.node_value)
        = some "#FF0000" ∧
      c4node.color = "#FF0000" :=
  ⟨rfl, spec_C4_override_precedence c4rows ["A"] none "Uniform" "#3B82F6" none
    [(("A", "x"), "#FF0000")] none c4node "#FF0000"
    (InForest.here (List.Mem.head _)) rfl⟩

/-- C9 (code bug): when `json.dumps` fails on the full tree, the fallback
of lines 732-741 empties only the ROOT's `raw_data` and keeps `children`
as-is; its own `json.dumps` call is unguarded. On `c9tree`, whose
offending value sits in a child's `raw_data`, the fallback fails too and
the whole export fails. On `c9tree2`, whose offending value sits at the
root only, the fallback output still carries the children's raw row
payload. Both contradict the claim that a fallback with `raw_data`
elided is always emitted. -/
theorem spec_C9_fallback_incomplete :
    json_dumps c9tree = none ∧
      tree_data_json c9tree = none ∧
      tree_data_json c9tree2 = some (fallbackTree c9tree2) ∧
      (fallbackTree c9tree2).children.map DTree.raw_data = [[JVal.jstr "row"]] :=
  ⟨rfl, rfl, rfl, rfl⟩

/-- C5 counterexample: with filter `{"B": {"y"}}` on `c5rows`, the "z"
group produces no node, but the root's value is still 2: the row of the
filtered-out "B: z" group is NOT dropped from the ancestor total (the
parent's `value` is computed from its full group at line 195/277, before
the children's filter runs), where the claim requires 1. -/
theorem spec_C5_counterexample :
    (build_tree c5rows ["A", "B"] none "Uniform" "#3B82F6" none none
        (some [("B", ["y"])])).map
      (fun n => (n.node_value, n.value, n.children.map (fun c => (c.node_value, c.value))))
      = [("x", 2, [("y", 1)])] ∧ (2 : Int) ≠ 1 :=
  ⟨rfl, by decide⟩

/-- C5 (amended): a non-empty filter entry for a column restricts the
nodes produced at that level to the allowed values (and with them their
whole subtrees), but every node's `value` - and hence its percentage -
is still computed from its full, unfiltered row group, so filtered-out
rows are not dropped from ancestor totals. -/
theorem spec_C5_visibility_filter (df : List Row) (hierarchy : List String)
    (vc : Option String) (cm uc : String) (lc : Option (List (Nat × String)))
    (pc : Option (List ((String × String) × String)))
    (m : List (String × List String)) (n : Node) (allowed : List String)
    (hn : InForest n (build_tree df hierarchy vc cm uc lc pc (some m))) :
    (lookupList m n.column = some allowed → allowed ≠ [] → n.node_value ∈ allowed) ∧
      n.value = rowsValue vc n.raw_data ∧
      n.percentage = percentage_value df.length n.value := by
  obtain ⟨hval, hpct, -, hkeep, -⟩ := nodeInv_of_build_tree vc cm uc lc pc (some m) hn
  refine ⟨?_, hval, hpct⟩
  intro hlook hne
  rw [keepVal, hlook] at hkeep
  rcases Bool.or_eq_true_iff.mp hkeep with hemp | hcon
  · exact absurd (List.isEmpty_iff.mp hemp) hne
  · exact List.elem_iff.mp hcon

/-- C5 witness: on `c5rows` with filter `{"B": {"y"}}`, the surviving
child's value is in the allowed set, and the root's value is the
aggregate of its full raw group. -/
theorem spec_C5_witness :
    lookupList [("B", ["y"])] c5childnode.column = some ["y"] ∧
      c5childnode.node_value ∈ ["y"] ∧
      c5rootnode.value = rowsValue none c5rootnode.raw_data :=
  ⟨rfl,
    (spec_C5_visibility_filter c5rows ["A", "B"] none "Uniform" "#3B82F6" none none
      [("B", ["y"])] c5childnode ["y"]
      (InForest.child (List.Mem.head _) (InForest.here (List.Mem.head _)))).1
      rfl (by decide),
    (spec_C5_visibility_filter c5rows ["A", "B"] none "Uniform" "#3B82F6" none none
      [("B", ["y"])] c5rootnode ["y"]
      (InForest.here (List.Mem.head _))).2.1⟩

theorem spliceLoop_of_lt (d : DragNode) : ∀ (sib : List DragNode) (k : Nat),
    k < sib.length → spliceLoop d sib k = sib.take k ++ d :: sib.drop k := by
  intro sib
  induction sib with
  | nil => intro k hk; simp at hk
  | cons s rest ih =>
    intro k hk
    cases k with
    | zero => simp [spliceLoop]
    | succ k => simp [spliceLoop, ih k (by simpa using hk)]

theorem spliceLoop_of_len (d : DragNode) : ∀ sib : List DragNode,
    spliceLoop d sib sib.length = sib := by
  intro sib
  induction sib with
  | nil => rfl
  | cons s rest ih => simpa [spliceLoop] using ih

theorem dropIndexOf_le (py : Int) (sib : List DragNode) :
    dropIndexOf py sib ≤ sib.length := by
  unfold dropIndexOf
  cases h : sib.findIdx? (fun s => decide (py < s.x)) with
  | none => simp
  | some i =>
    simp only
    exact le_of_lt ((List.findIdx?_eq_some_iff_findIdx_eq.mp h).1)

theorem newOrder_eq_insert (d : DragNode) (sib : List DragNode) (py : Int) :
    newOrder d sib py
      = sib.take (dropIndexOf py sib) ++ d :: sib.drop (dropIndexOf py sib) := by
  unfold newOrder
  by_cases h : dropIndexOf py sib = sib.length
  · rw [if_pos h, h, spliceLoop_of_len]
    simp
  · rw [if_neg h, spliceLoop_of_lt d sib _ (lt_of_le_of_ne (dropIndexOf_le py sib) h)]

/-- C8: completing a drag among `n` sorted remaining siblings yields
exactly `n + 1` siblings: the dragged node is spliced in immediately
before the first sibling whose position exceeds the drop point (at the
end when there is none), the result is a permutation of the dragged node
with the old siblings (no loss), and distinctness is preserved (no
duplicates). Lines 2358-2370. -/
theorem spec_C8_drag_reorder (d : DragNode) (sib : List DragNode) (py : Int) :
    (newOrder d sib py).length = sib.length + 1 ∧
      newOrder d sib py
        = sib.take (dropIndexOf py sib) ++ d :: sib.drop (dropIndexOf py sib) ∧
      (newOrder d sib py).Perm (d :: sib) ∧
      (d ∉ sib → sib.Nodup → (newOrder d sib py).Nodup) := by
  have hform := newOrder_eq_insert d sib py
  have hperm : (newOrder d sib py).Perm (d :: sib) := by
    rw [hform]
    have h1 : (sib.take (dropIndexOf py sib) ++ d :: sib.drop (dropIndexOf py sib)).Perm
        (d :: (sib.take (dropIndexOf py sib) ++ sib.drop (dropIndexOf py sib))) :=
      List.perm_middle
    rw [List.take_append_drop] at h1
    exact h1
  refine ⟨?_, hform, hperm, ?_⟩
  · rw [hperm.length_eq]; simp
  · intro hd hnd
    exact hperm.nodup_iff.mpr (List.nodup_cons.mpr ⟨hd, hnd⟩)

/-- C8 witness: dropping node 99 at position 5 between siblings at
positions 0 and 10 gives the three nodes in order [1, 99, 2], without
duplicates. -/
theorem spec_C8_witness :
    c8d ∉ c8sibs ∧ c8sibs.Nodup ∧
      (newOrder c8d c8sibs 5).length = 3 ∧
      newOrder c8d c8sibs 5 = [⟨1, 0⟩, ⟨99, 5⟩, ⟨2, 10⟩] ∧
      (newOrder c8d c8sibs 5).Nodup :=
  ⟨by decide, by decide, (spec_C8_drag_reorder c8d c8sibs 5).1, by decide,
    (spec_C8_drag_reorder c8d c8sibs 5).2.2.2 (by decide) (by decide)⟩

theorem filterMap_map_node_value (f : Cell → Node) (q : Cell → Bool)
    (hf : ∀ k, (f k).node_value = valStr k) :
    ∀ ks0 : List Cell,
      ((ks0.filterMap (fun k => if q k then some (f k) else none)).map Node.node_value)
        = (ks0.filter q).map valStr := by
  intro ks0
  induction ks0 with
  | nil => rfl
  | cons k ks ih =>
    by_cases hq : q k <;> simp [List.filterMap_cons, List.filter_cons, hq, ih, hf]

theorem keySorted_buildForest (total_count : Nat) (value_col : Option String)
    (color_mode uniform_color : String) (level_colors : Option (List (Nat × String)))
    (per_node_colors : Option (List ((String × String) × String)))
    (display_filters : Option (List (String × List String))) :
    ∀ (hl : List String) (level : Nat) (rows : List Row),
      KeySortedForest (buildForest total_count value_col color_mode uniform_color
        level_colors per_node_colors display_filters hl level rows) := by
  intro hl
  induction hl with
  | nil =>
    intro level rows
    exact ⟨[], by simp, rfl, by simp [buildForest]⟩
  | cons col rest ih =>
    intro level rows
    refine KeySortedForest.intro
      ((sortedKeys (rowKeys col rows)).filter
        (fun k => keepVal display_filters col (valStr k))) ?_ ?_ ?_
    · exact (pairwise_sortedKeys _).sublist (List.filter_sublist _)
    · simp only [buildForest, groupby, List.filterMap_map]
      exact filterMap_map_node_value
        (fun k => mkNode total_count value_col color_mode uniform_color level_colors
          per_node_colors level col k
          (rows.filter (fun r => decide (Row.get r col = k)))
          (buildForest total_count value_col color_mode uniform_color level_colors
            per_node_colors display_filters rest (level + 1)
            (rows.filter (fun r => decide (Row.get r col = k)))))
        (fun k => keepVal display_filters col (valStr k)) (fun k => rfl) _
    · intro n hn
      obtain ⟨col2, rest2, k, g, hcons, hg, hkeep, hmk⟩ := mem_buildForest total_count
        value_col color_mode uniform_color level_colors per_node_colors display_filters hn
      injection hcons with h1 h2
      subst h2
      rw [hmk]
      exact ih (level + 1) g

/-- C7: `build_tree` is deterministic (a pure function of its inputs:
aggregating twice yields the same tree), and at every level the sibling
lists are produced in the ascending order of the grouping keys (pandas
`groupby` sorts keys ascending by default; the visibility filter only
removes entries from the sorted key list, keeping it sorted). -/
theorem spec_C7_deterministic_sorted_siblings (df : List Row) (hierarchy : List String)
    (vc : Option String) (cm uc : String) (lc : Option (List (Nat × String)))
    (pc : Option (List ((String × String) × String)))
    (flt : Option (List (String × List String))) :
    build_tree df hierarchy vc cm uc lc pc flt = build_tree df hierarchy vc cm uc lc pc flt ∧
      KeySortedForest (build_tree df hierarchy vc cm uc lc pc flt) := by
  refine ⟨rfl, ?_⟩
  cases hierarchy with
  | nil => exact ⟨[], by simp, rfl, by simp [build_tree]⟩
  | cons col rest =>
    exact keySorted_buildForest df.length vc cm uc lc pc flt (col :: rest) 0 df

theorem map_value_filterMap (q : Cell × List Row → Bool) (mk2 : Cell × List Row → Node)
    (vc : Option String) (hval : ∀ g, (mk2 g).value = rowsValue vc g.2) :
    ∀ gs : List (Cell × List Row), (∀ g ∈ gs, q g = true) →
      ((gs.filterMap (fun g => if q g then some (mk2 g) else none)).map Node.value)
        = gs.map (fun g => rowsValue vc g.2) := by
  intro gs
  induction gs with
  | nil => intro _; rfl
  | cons g gs ih =>
    intro hall
    rw [List.filterMap_cons, if_pos (hall g (List.mem_cons_self g gs))]
    simp only [List.map_cons]
    rw [ih (fun g2 hg2 => hall g2 (List.mem_cons_of_mem g hg2)), hval]

theorem keep_of_rows {flt : Option (List (String × List String))} {col : String}
    {rows : List Row}
    (hkeep : ∀ r ∈ rows, keepVal flt col (valStr (Row.get r col)) = true) :
    ∀ g ∈ groupby col rows, keepVal flt col (valStr g.1) = true := by
  rintro ⟨k, g⟩ hg
  obtain ⟨-, hk⟩ := mem_groupby hg
  obtain ⟨-, r, hr, hrk⟩ := mem_rowKeys_elim (mem_sortedKeys.mp hk)
  exact hrk ▸ hkeep r hr

theorem buildForest_values (total_count : Nat) (value_col : Option String)
    (color_mode uniform_color : String) (level_colors : Option (List (Nat × String)))
    (per_node_colors : Option (List ((String × String) × String)))
    (display_filters : Option (List (String × List String)))
    (col : String) (rest : List String) (level : Nat) (rows : List Row)
    (hkeepall : ∀ g ∈ groupby col rows, keepVal display_filters col (valStr g.1) = true) :
    (buildForest total_count value_col color_mode uniform_color level_colors
        per_node_colors display_filters (col :: rest) level rows).map Node.value
      = (groupby col rows).map (fun g => rowsValue value_col g.2) := by
  simp only [buildForest]
  exact map_value_filterMap
    (fun g => keepVal display_filters col (valStr g.1))
    (fun g => mkNode total_count value_col color_mode uniform_color level_colors
      per_node_colors level col g.1 g.2
      (buildForest total_count value_col color_mode uniform_color level_colors
        per_node_colors display_filters rest (level + 1) g.2))
    value_col (fun g => rfl) (groupby col rows) hkeepall

theorem buildForest_count_sum (total_count : Nat)
    (color_mode uniform_color : String) (level_colors : Option (List (Nat × String)))
    (per_node_colors : Option (List ((String × String) × String)))
    (display_filters : Option (List (String × List String)))
    (col : String) (rest : List String) (level : Nat) (rows : List Row)
    (hkeepall : ∀ g ∈ groupby col rows, keepVal display_filters col (valStr g.1) = true)
    (hna : ∀ r ∈ rows, (Row.get r col).isNa = false) :
    ((buildForest total_count none color_mode uniform_color level_colors
        per_node_colors display_filters (col :: rest) level rows).map Node.value).sum
      = rowsValue none rows := by
  rw [buildForest_values total_count none color_mode uniform_color level_colors
    per_node_colors display_filters col rest level rows hkeepall]
  have hgrp : ∀ g : Cell × List Row, rowsValue none g.2
      = (g.2.map (fun _ => (1 : Int))).sum :=
    fun g => (length_sum_int g.2).symm
  rw [List.map_congr_left (fun (g : Cell × List Row) _ => hgrp g),
    groupby_sum col (fun _ => (1 : Int)) rows hna, length_sum_int]
  rfl

theorem cast_sum_int : ∀ l : List Int,
    ((l.sum : Int) : ℚ) = (l.map (fun n : Int => (n : ℚ))).sum := by
  intro l
  induction l with
  | nil => simp
  | cons n l ih => simp only [List.map_cons, List.sum_cons, ih]; push_cast; ring

theorem den_one_cast {q : ℚ} (h : q.den = 1) : ((q.num : Int) : ℚ) = q := by
  have h2 := Rat.num_div_den q
  rw [h] at h2
  simpa using h2

theorem pyInt_cast_of_den_one {q : ℚ} (h : q.den = 1) : ((pyInt q : Int) : ℚ) = q := by
  have hp : pyInt q = q.num := by
    rw [pyInt, h]
    simp [Int.div_one]
  rw [hp]
  exact den_one_cast h

theorem den_one_add {a b : ℚ} (ha : a.den = 1) (hb : b.den = 1) : (a + b).den = 1 := by
  rw [← den_one_cast ha, ← den_one_cast hb, ← Int.cast_add]
  exact Rat.den_intCast _

theorem den_one_sum : ∀ l : List ℚ, (∀ q ∈ l, q.den = 1) → l.sum.den = 1 := by
  intro l
  induction l with
  | nil => intro _; rfl
  | cons q l ih =>
    intro h
    rw [List.sum_cons]
    exact den_one_add (h q (List.mem_cons_self q l))
      (ih (fun q2 hq2 => h q2 (List.mem_cons_of_mem q hq2)))

theorem buildForest_rat_sum (total_count : Nat) (cvc : String)
    (color_mode uniform_color : String) (level_colors : Option (List (Nat × String)))
    (per_node_colors : Option (List ((String × String) × String)))
    (display_filters : Option (List (String × List String)))
    (col : String) (rest : List String) (level : Nat) (rows : List Row)
    (hkeepall : ∀ g ∈ groupby col rows, keepVal display_filters col (valStr g.1) = true)
    (hna : ∀ r ∈ rows, (Row.get r col).isNa = false)
    (hden : ∀ r ∈ rows, ((Row.get r cvc).toNum).den = 1) :
    ((buildForest total_count (some cvc) color_mode uniform_color level_colors
        per_node_colors display_filters (col :: rest) level rows).map Node.value).sum
      = rowsValue (some cvc) rows := by
  rw [buildForest_values total_count (some cvc) color_mode uniform_color level_colors
    per_node_colors display_filters col rest level rows hkeepall]
  have hgden : ∀ g ∈ groupby col rows,
      ((g.2.map (fun r => (Row.get r cvc).toNum)).sum).den = 1 := by
    rintro ⟨k, g⟩ hg
    obtain ⟨hgeq, -⟩ := mem_groupby hg
    refine den_one_sum _ ?_
    intro q hq
    obtain ⟨r, hr, rfl⟩ := List.mem_map.mp hq
    exact hden r (List.mem_of_mem_filter (hgeq ▸ hr))
  have key : ((((groupby col rows).map (fun g => rowsValue (some cvc) g.2)).sum
        : Int) : ℚ)
      = ((rowsValue (some cvc) rows : Int) : ℚ) := by
    rw [cast_sum_int, List.map_map]
    have hterm : ∀ g ∈ groupby col rows,
        ((fun n : Int => (n : ℚ)) ∘ (fun g : Cell × List Row =>
          rowsValue (some cvc) g.2)) g
          = (g.2.map (fun r => (Row.get r cvc).toNum)).sum :=
      fun g hg => pyInt_cast_of_den_one (hgden g hg)
    rw [List.map_congr_left hterm,
      groupby_sum col (fun r => (Row.get r cvc).toNum) rows hna]
    exact (pyInt_cast_of_den_one (den_one_sum _ (fun q hq => by
      obtain ⟨r, hr, rfl⟩ := List.mem_map.mp hq
      exact hden r hr))).symm
  exact_mod_cast key

theorem getD_of_drop_eq_cons : ∀ (l : List String) (i : Nat) (c : String)
    (r : List String), l.drop i = c :: r → l.getD i "" = c := by
  intro l i
  induction i generalizing l with
  | zero =>
    intro c r h
    rw [List.drop_zero] at h
    subst h
    rfl
  | succ i ih =>
    intro c r h
    cases l with
    | nil => simp at h
    | cons a l2 => exact ih l2 c r (by simpa using h)

/-- C1 counterexample, two failure modes of the unrestricted claim: on
`c1xrows` (one row with NaN in the child column) the root "A: x" has
value 2 but its children sum to 1, because pandas drops the NaN-keyed
row from the child grouping; and on `c1frows` (fractional measures, no
NaN, no filter) the root has value `int(0.5 + 0.5) = 1` while both
children have `int(0.5) = 0`, because line 195 truncates each group's
sum separately. -/
theorem spec_C1_counterexample :
    (InForest c1xnode (build_tree c1xrows ["A", "B"] none "Uniform" "#3B82F6"
        none none none) ∧
      c1xnode.children ≠ [] ∧
      c1xnode.value ≠ (c1xnode.children.map Node.value).sum) ∧
      (build_tree c1frows ["A", "B"] (some "v") "Uniform" "#3B82F6" none none
          none).map (fun n => (n.value, n.children.map Node.value)) = [(1, [0, 0])] ∧
      (1 : Int) ≠ 0 + 0 :=
  ⟨⟨InForest.here (List.Mem.head _), List.cons_ne_nil _ _, by decide⟩,
    by with_unfolding_all rfl, by decide⟩

/-- C1 (amended): a node with children satisfies value-additivity
provided no row of its group is dropped on the way to the children (every
row has a non-NaN value in the child grouping column and the visibility
filter keeps every child group value), and, when a value column is used,
every row's measure is an integer, so the `int()` truncation of line 195
is the identity on each group sum. (The unrestricted claim fails both
ways, see the counterexample.) -/
theorem spec_C1_value_additivity (df : List Row) (hierarchy : List String)
    (vc : Option String) (cm uc : String) (lc : Option (List (Nat × String)))
    (pc : Option (List ((String × String) × String)))
    (flt : Option (List (String × List String))) (n : Node)
    (hn : InForest n (build_tree df hierarchy vc cm uc lc pc flt))
    (hch : n.children ≠ [])
    (hna : ∀ r ∈ n.raw_data,
      (Row.get r (hierarchy.getD (n.level + 1) "")).isNa = false)
    (hkeep : ∀ r ∈ n.raw_data, keepVal flt (hierarchy.getD (n.level + 1) "")
      (valStr (Row.get r (hierarchy.getD (n.level + 1) ""))) = true)
    (hint : ∀ cvc : String, vc = some cvc →
      ∀ r ∈ n.raw_data, ((Row.get r cvc).toNum).den = 1) :
    n.value = (n.children.map Node.value).sum := by
  obtain ⟨hval, -, -, -, hchildren⟩ := nodeInv_of_build_tree vc cm uc lc pc flt hn
  cases hd : hierarchy.drop (n.level + 1) with
  | nil =>
    rw [hchildren, hd] at hch
    exact absurd rfl hch
  | cons col rest =>
    have hcol : hierarchy.getD (n.level + 1) "" = col :=
      getD_of_drop_eq_cons hierarchy _ col rest hd
    rw [hval, hchildren, hd]
    cases hvc : vc with
    | none =>
      exact (buildForest_count_sum df.length cm uc lc pc flt col rest (n.level + 1)
        n.raw_data (keep_of_rows (hcol ▸ hkeep)) (hcol ▸ hna)).symm
    | some cvc =>
      exact (buildForest_rat_sum df.length cvc cm uc lc pc flt col rest (n.level + 1)
        n.raw_data (keep_of_rows (hcol ▸ hkeep)) (hcol ▸ hna)
        (hint cvc hvc)).symm

/-- C1 witness: the root over `c1wrows` (integer measure column "v") has
children, no NaN in the child column, no filter, integral measures, and
5 = 2 + 3. -/
theorem spec_C1_witness :
    c1wnode.children ≠ [] ∧
      (∀ r ∈ c1wnode.raw_data, (Row.get r (["A", "B"].getD 1 "")).isNa = false) ∧
      (∀ r ∈ c1wnode.raw_data, ((Row.get r "v").toNum).den = 1) ∧
      c1wnode.value = (c1wnode.children.map Node.value).sum := by
  have hf : build_tree c1wrows ["A", "B"] (some "v") "Uniform" "#3B82F6" none none none
      = [c1wnode] := by with_unfolding_all rfl
  refine ⟨List.cons_ne_nil _ _, by decide, by decide, ?_⟩
  exact spec_C1_value_additivity c1wrows ["A", "B"] (some "v") "Uniform" "#3B82F6" none
    none none c1wnode (InForest.here (hf.symm ▸ List.mem_singleton_self c1wnode))
    (List.cons_ne_nil _ _) (by decide) (by decide)
    (by intro cvc h; cases h; decide)

theorem pyRoundDiv_def (a b : Int) : pyRoundDiv a b =
    if 2 * Int.emod a b < b then Int.ediv a b
    else if b < 2 * Int.emod a b then Int.ediv a b + 1
    else if Even (Int.ediv a b) then Int.ediv a b else Int.ediv a b + 1 := rfl

theorem pyRoundDiv_sub_abs_le (a b : Int) (hb : 0 < b) :
    |((pyRoundDiv a b : Int) : ℚ) - (a : ℚ) / (b : ℚ)| ≤ 1 / 2 := by
  have hbq : (0 : ℚ) < b := by exact_mod_cast hb
  have hbne : (b : ℚ) ≠ 0 := hbq.ne'
  have hsum : b * Int.ediv a b + Int.emod a b = a := Int.ediv_add_emod a b
  have hr0 : 0 ≤ Int.emod a b := Int.emod_nonneg a hb.ne'
  have hrb : Int.emod a b < b := Int.emod_lt_of_pos a hb
  have hr0q : (0 : ℚ) ≤ ((Int.emod a b : Int) : ℚ) := by exact_mod_cast hr0
  have hrbq : ((Int.emod a b : Int) : ℚ) < b := by exact_mod_cast hrb
  have hq : (a : ℚ) / b = ((Int.ediv a b : Int) : ℚ) + ((Int.emod a b : Int) : ℚ) / b := by
    have ha : (a : ℚ) = (b : ℚ) * ((Int.ediv a b : Int) : ℚ) + ((Int.emod a b : Int) : ℚ) := by
      exact_mod_cast hsum.symm
    rw [ha]
    field_simp
    ring
  rw [pyRoundDiv_def]
  split_ifs with h1 h2 h3
  · have h1q : 2 * ((Int.emod a b : Int) : ℚ) < b := by exact_mod_cast h1
    have hkey : ((Int.ediv a b : Int) : ℚ) - (a : ℚ) / b
        = -(((Int.emod a b : Int) : ℚ) / b) := by
      rw [hq]; ring
    rw [hkey, abs_neg, abs_of_nonneg (by positivity)]
    rw [div_le_div_iff hbq (by norm_num)]
    linarith
  · have h2q : (b : ℚ) < 2 * ((Int.emod a b : Int) : ℚ) := by exact_mod_cast h2
    have hkey : (((Int.ediv a b + 1 : Int)) : ℚ) - (a : ℚ) / b
        = 1 - ((Int.emod a b : Int) : ℚ) / b := by
      push_cast
      rw [hq]; ring
    have hge : (1 : ℚ) / 2 ≤ ((Int.emod a b : Int) : ℚ) / b := by
      rw [div_le_div_iff (by norm_num) hbq]
      linarith
    have hle1 : ((Int.emod a b : Int) : ℚ) / b ≤ 1 := by
      rw [div_le_one hbq]
      linarith
    rw [hkey, abs_of_nonneg (by linarith)]
    linarith
  · have htie : 2 * Int.emod a b = b := by omega
    have htieq : (b : ℚ) = 2 * ((Int.emod a b : Int) : ℚ) := by exact_mod_cast htie.symm
    have hrpos : (0 : ℚ) < ((Int.emod a b : Int) : ℚ) := by
      have : 0 < Int.emod a b := by omega
      exact_mod_cast this
    have hhalf : ((Int.emod a b : Int) : ℚ) / b = 1 / 2 := by
      rw [htieq, div_eq_div_iff (by positivity) (by norm_num)]
      ring
    have hkey : ((Int.ediv a b : Int) : ℚ) - (a : ℚ) / b = -(1 / 2) := by
      rw [hq, hhalf]; ring
    rw [hkey, abs_neg, abs_of_nonneg (by norm_num)]
  · have htie : 2 * Int.emod a b = b := by omega
    have htieq : (b : ℚ) = 2 * ((Int.emod a b : Int) : ℚ) := by exact_mod_cast htie.symm
    have hrpos : (0 : ℚ) < ((Int.emod a b : Int) : ℚ) := by
      have : 0 < Int.emod a b := by omega
      exact_mod_cast this
    have hhalf : ((Int.emod a b : Int) : ℚ) / b = 1 / 2 := by
      rw [htieq, div_eq_div_iff (by positivity) (by norm_num)]
      ring
    have hkey : (((Int.ediv a b + 1 : Int)) : ℚ) - (a : ℚ) / b = 1 / 2 := by
      push_cast
      rw [hq, hhalf]; ring
    rw [hkey, abs_of_nonneg (by norm_num)]

theorem abs_sum_pair_le (x1 x2 y1 y2 : ℚ) :
    |x1 + x2 - (y1 + y2)| ≤ |x1 - y1| + |x2 - y2| := by
  have h : x1 + x2 - (y1 + y2) = (x1 - y1) + (x2 - y2) := by ring
  rw [h]
  exact abs_add _ _

theorem sum_pyRound_close (T : Int) (hT : 0 < T) :
    ∀ vs : List Int,
      |(((vs.map (fun v => pyRoundDiv (v * 100) T)).sum : Int) : ℚ)
          - (vs.map (fun v : Int => (v : ℚ) * 100 / (T : ℚ))).sum|
        ≤ (vs.length : ℚ) / 2 := by
  intro vs
  induction vs with
  | nil => simp
  | cons v vs ih =>
    simp only [List.map_cons, List.sum_cons, List.length_cons]
    have h1 := pyRoundDiv_sub_abs_le (v * 100) T hT
    have h1q : |((pyRoundDiv (v * 100) T : Int) : ℚ) - (v : ℚ) * 100 / T| ≤ 1 / 2 := by
      have hc : ((v * 100 : Int) : ℚ) = (v : ℚ) * 100 := by push_cast; ring
      rwa [hc] at h1
    have hc2 : ((pyRoundDiv (v * 100) T
          + (vs.map (fun v => pyRoundDiv (v * 100) T)).sum : Int) : ℚ)
        = ((pyRoundDiv (v * 100) T : Int) : ℚ)
          + (((vs.map (fun v => pyRoundDiv (v * 100) T)).sum : Int) : ℚ) := by
      push_cast
      ring
    rw [hc2]
    refine le_trans (abs_sum_pair_le _ _ _ _) (le_trans (add_le_add h1q ih) (le_of_eq ?_))
    push_cast
    ring

theorem sum_div_hundred (T : ℚ) : ∀ vs : List Int,
    (vs.map (fun v : Int => (v : ℚ) * 100 / T)).sum = ((vs.sum : Int) : ℚ) * 100 / T := by
  intro vs
  induction vs with
  | nil => simp
  | cons v vs ih =>
    rw [List.map_cons, List.sum_cons, ih, List.sum_cons]
    push_cast
    ring

theorem map_pct_filterMap (q : Cell × List Row → Bool) (mk2 : Cell × List Row → Node)
    (TC : Nat) (vc : Option String)
    (hval : ∀ g, (mk2 g).percentage = percentage_value TC (rowsValue vc g.2)) :
    ∀ gs : List (Cell × List Row), (∀ g ∈ gs, q g = true) →
      ((gs.filterMap (fun g => if q g then some (mk2 g) else none)).map Node.percentage)
        = gs.map (fun g => percentage_value TC (rowsValue vc g.2)) := by
  intro gs
  induction gs with
  | nil => intro _; rfl
  | cons g gs ih =>
    intro hall
    rw [List.filterMap_cons, if_pos (hall g (List.mem_cons_self g gs))]
    simp only [List.map_cons]
    rw [ih (fun g2 hg2 => hall g2 (List.mem_cons_of_mem g hg2)), hval]

theorem top_percentage_sum (df : List Row) (col : String) (rest : List String)
    (cm uc : String) (lc : Option (List (Nat × String)))
    (pc : Option (List ((String × String) × String)))
    (hne : df ≠ [])
    (hna : ∀ r ∈ df, (Row.get r col).isNa = false) :
    |((build_tree df (col :: rest) none cm uc lc pc none).map Node.percentage).sum - 100|
      ≤ ((build_tree df (col :: rest) none cm uc lc pc none).length : Int) := by
  have hT : 0 < df.length := List.length_pos.mpr hne
  have hTz : 0 < (df.length : Int) := by exact_mod_cast hT
  have hkeepall : ∀ g ∈ groupby col df, keepVal none col (valStr g.1) = true := by
    intro g _
    rfl
  have hbt : build_tree df (col :: rest) none cm uc lc pc none
      = buildForest df.length none cm uc lc pc none (col :: rest) 0 df := rfl
  have hval : (buildForest df.length none cm uc lc pc none (col :: rest) 0 df).map
        Node.value = (groupby col df).map (fun g => rowsValue none g.2) := by
    simpa only [buildForest] using map_value_filterMap
      (fun g => keepVal none col (valStr g.1))
      (fun g => mkNode df.length none cm uc lc pc 0 col g.1 g.2
        (buildForest df.length none cm uc lc pc none rest 1 g.2))
      none (fun g => rfl) (groupby col df) hkeepall
  have hpct : (buildForest df.length none cm uc lc pc none (col :: rest) 0 df).map
        Node.percentage
      = ((groupby col df).map (fun g => rowsValue none g.2)).map
          (fun v => percentage_value df.length v) := by
    rw [List.map_map]
    simpa only [buildForest] using map_pct_filterMap
      (fun g => keepVal none col (valStr g.1))
      (fun g => mkNode df.length none cm uc lc pc 0 col g.1 g.2
        (buildForest df.length none cm uc lc pc none rest 1 g.2))
      df.length none (fun g => rfl) (groupby col df) hkeepall
  have hsum_vs : ((groupby col df).map (fun g => rowsValue none g.2)).sum
      = (df.length : Int) := by
    rw [← hval, buildForest_count_sum df.length cm uc lc pc none col rest 0 df
      hkeepall hna]
    rfl
  have hpos : ∀ v : Int, percentage_value df.length v
      = pyRoundDiv (v * 100) (df.length : Int) := by
    intro v
    simp [percentage_value, hT]
  have hpct2 : (buildForest df.length none cm uc lc pc none (col :: rest) 0 df).map
        Node.percentage
      = ((groupby col df).map (fun g => rowsValue none g.2)).map
          (fun v => pyRoundDiv (v * 100) (df.length : Int)) := by
    rw [hpct]
    exact List.map_congr_left (fun v _ => hpos v)
  have hlen : (buildForest df.length none cm uc lc pc none (col :: rest) 0 df).length
      = ((groupby col df).map (fun g => rowsValue none g.2)).length := by
    rw [← hval, List.length_map]
  have hclose := sum_pyRound_close (df.length : Int) hTz
    ((groupby col df).map (fun g => rowsValue none g.2))
  have hTne : (((df.length : Int) : Int) : ℚ) ≠ 0 := by
    have : (0 : ℚ) < ((df.length : Int) : ℚ) := by exact_mod_cast hTz
    exact this.ne'
  have hexact : (((groupby col df).map (fun g => rowsValue none g.2)).map
        (fun v : Int => (v : ℚ) * 100 / (((df.length : Int)) : ℚ))).sum = 100 := by
    rw [sum_div_hundred (((df.length : Int)) : ℚ) _, hsum_vs]
    field_simp
  rw [hbt, hpct2, hlen]
  rw [hexact] at hclose
  rw [← Int.cast_le (R := ℚ)]
  push_cast
  push_cast at hclose
  linarith

/-- C2 counterexample: with a value column, `build_tree` divides by the
ROW COUNT `len(df)` (line 182), not by the "sum of value across
top-level groups" the claim names: on `c2rows` the single root has value
20 and percentage `round(20 / 2 * 100) = 1000`, while rounding against
the top-level value sum (20) would give 100. -/
theorem spec_C2_counterexample :
    (build_tree c2rows ["A"] (some "v") "Uniform" "#3B82F6" none none none).map
        (fun n => (n.value, n.percentage)) = [(20, 1000)] ∧
      ((build_tree c2rows ["A"] (some "v") "Uniform" "#3B82F6" none none none).map
        Node.value).sum = 20 ∧
      pyRoundDiv (20 * 100) 20 = 100 ∧ (1000 : Int) ≠ 100 :=
  ⟨by with_unfolding_all rfl, by with_unfolding_all rfl, by decide, by decide⟩

/-- C2 (amended): every node's percentage is the half-to-even rounding of
`value / len(df) * 100` - the denominator is the total row count of the
input table, computed once before recursion (not the sum of top-level
values, see the counterexample; the two agree in count mode when nothing
is dropped). And in count mode with no visibility filter and no NaN in
the root grouping column, the top-level percentages sum to 100 within
±1 per node. -/
theorem spec_C2_percentage (df : List Row) (hierarchy : List String) (vc : Option String)
    (cm uc : String) (lc : Option (List (Nat × String)))
    (pc : Option (List ((String × String) × String)))
    (flt : Option (List (String × List String))) :
    (∀ n : Node, InForest n (build_tree df hierarchy vc cm uc lc pc flt) →
      n.percentage = percentage_value df.length n.value) ∧
    (vc = none → flt = none → df ≠ [] →
      ∀ col rest2, hierarchy = col :: rest2 →
      (∀ r ∈ df, (Row.get r col).isNa = false) →
      |((build_tree df hierarchy vc cm uc lc pc flt).map Node.percentage).sum - 100|
        ≤ ((build_tree df hierarchy vc cm uc lc pc flt).length : Int)) := by
  constructor
  · intro n hn
    exact (nodeInv_of_build_tree vc cm uc lc pc flt hn).2.1
  · rintro rfl rfl hne col rest2 rfl hna
    exact top_percentage_sum df col rest2 cm uc lc pc hne hna

/-- C2 witness: on the spec scenario, the "Region: South" node's
percentage is `round(1 / 3 * 100) = 33`, and the top-level percentages
67 + 33 are within 2 (= number of roots) of 100. -/
theorem spec_C2_witness :
    c2wnode.percentage = percentage_value 3 c2wnode.value ∧
      |((build_tree scenarioRows ["Region", "Status"] none "Uniform" "#3B82F6" none none
          none).map Node.percentage).sum - 100|
        ≤ ((build_tree scenarioRows ["Region", "Status"] none "Uniform" "#3B82F6" none
          none none).length : Int) :=
  ⟨(spec_C2_percentage scenarioRows ["Region", "Status"] none "Uniform" "#3B82F6" none
      none none).1 c2wnode (InForest.here (List.Mem.tail _ (List.Mem.head _))),
    (spec_C2_percentage scenarioRows ["Region", "Status"] none "Uniform" "#3B82F6" none
      none none).2 rfl rfl (by decide) "Region" ["Status"] rfl (by decide)⟩
